import Mathlib

/-!
Verification of the tif2webp batch-conversion script (src/tif2webp.py).

File names and paths are modelled as lists of characters.  The helper
functions `lastSplit`, `afterLastSep`, `baseName`, `dirName`, `splitext`
and `joinPath` embed the `os.path` primitives the script uses
(`os.path.basename`, `os.path.dirname`, `os.path.splitext`,
`os.path.join` with the POSIX separator).  The script's own functions
`find_tiff_dirs`, `convert_to_webp`, `process_directory` and the
driver `main` are embedded as pure functions; filesystem reads
(directory listings, file sizes) and the external encoder are passed in
as explicit parameters, and the side effects the claims talk about
(directory creation, encoder invocations, output-size reads, files
written) are returned as explicit traces.
-/

/-- A file name or path, as a list of characters. -/
abbrev Name := List Char

/-- Python `str.lower()` restricted to what the script compares:
character-wise lower-casing. -/
def toLowerList (l : Name) : Name := l.map Char.toLower

/-- Splits `l` at the LAST occurrence of `c`: returns `some (pre, post)`
with `l = pre ++ c :: post` and `c ∉ post`, or `none` when `c ∉ l`. -/
def lastSplit (c : Char) : Name → Option (Name × Name)
  | [] => none
  | a :: rest =>
    match lastSplit c rest with
    | some (pre, post) => some (a :: pre, post)
    | none => if a == c then some ([], rest) else none

/-- The part of `l` after its last `'/'` (all of `l` when there is none);
this is `os.path.basename` for POSIX paths (`p[p.rfind(sep)+1:]`). -/
def afterLastSep (l : Name) : Name :=
  match lastSplit '/' l with
  | none => l
  | some (_, post) => post

/-- `os.path.basename`. -/
def baseName (p : Name) : Name := afterLastSep p

/-- Drops trailing `'/'` characters, as Python `str.rstrip(sep)`. -/
def rstripSep (l : Name) : Name := (l.reverse.dropWhile (fun c => c == '/')).reverse

/-- `os.path.dirname` for POSIX paths: `head = p[:p.rfind(sep)+1]`,
then `head` is stripped of trailing separators unless it consists of
separators only. -/
def dirName (p : Name) : Name :=
  match lastSplit '/' p with
  | none => []
  | some (pre, _) =>
      let head := pre ++ ['/']
      if head.all (fun c => c == '/') then head else rstripSep head

/-- `os.path.splitext` for POSIX paths: the extension starts at the last
dot, provided that dot lies after the last separator and some character
strictly between the last separator and that dot is not itself a dot
(so names consisting only of leading dots have no extension). -/
def splitext (p : Name) : Name × Name :=
  match lastSplit '.' p with
  | none => (p, [])
  | some (pre, post) =>
      if '/' ∈ post then (p, [])
      else if (afterLastSep pre).any (fun c => c != '.') then (pre, '.' :: post)
      else (p, [])

/-- `os.path.join a b` for POSIX paths: `b` when `b` is absolute,
plain concatenation when `a` is empty or already ends in the separator,
otherwise `a ++ "/" ++ b`. -/
def joinPath (a b : Name) : Name :=
  if b.head? = some '/' then b
  else if a = [] ∨ a.getLast? = some '/' then a ++ b
  else a ++ '/' :: b

/-- The literal `".tif"`. -/
def tifExt : Name := ['.', 't', 'i', 'f']

/-- The literal `".tiff"`. -/
def tiffExt : Name := ['.', 't', 'i', 'f', 'f']

/-- The literal `".webp"`. -/
def webpExt : Name := ['.', 'w', 'e', 'b', 'p']

/-- The literal `".txt"`. -/
def txtExt : Name := ['.', 't', 'x', 't']

/-- The literal `"_webp"` directory suffix. -/
def webpSuffix : Name := ['_', 'w', 'e', 'b', 'p']

/-- `name.lower().endswith(('.tif', '.tiff'))` — the script's test for a
TIFF file name (lines 73 and 148 of src/tif2webp.py). -/
def isTiffName (n : Name) : Bool :=
  tifExt.isSuffixOf (toLowerList n) || tiffExt.isSuffixOf (toLowerList n)

/-- `name.lower().endswith('.webp')` — the script's test for an already
converted output file (line 159 of src/tif2webp.py). -/
def isWebpName (n : Name) : Bool :=
  webpExt.isSuffixOf (toLowerList n)

/-- One entry of a directory listing, as `os.scandir` reports it:
a name and whether the entry is a regular file. -/
structure Entry where
  name : Name
  isFile : Bool
deriving DecidableEq

/-- The set (as a list) of base names of already-converted files, from
lines 156-160 of src/tif2webp.py: `os.path.splitext(f.name)[0]` for every
file entry of the destination directory whose name lower-ends with
`.webp`.  Note the base name keeps its original character case. -/
def convertedBases (destEntries : List Entry) : List Name :=
  (destEntries.filter (fun e => e.isFile && isWebpName e.name)).map
    (fun e => (splitext e.name).1)

/-- The work-list filter of lines 151-165 of src/tif2webp.py: with
`force_convert` every TIFF path is kept, otherwise a path is kept when
`os.path.splitext(os.path.basename(f))[0]` is not among the converted
base names of the destination directory. -/
def filesToConvert (tiffFiles : List Name) (destEntries : List Entry)
    (forceConvert : Bool) : List Name :=
  if forceConvert then tiffFiles
  else tiffFiles.filter
    (fun f => !(decide ((splitext (baseName f)).1 ∈ convertedBases destEntries)))

/-- The TIFF paths of lines 146-149 of src/tif2webp.py: `f.path` (the
directory joined with the entry name) for every file entry whose name
lower-ends with `.tif` or `.tiff`. -/
def tiffFilesOf (tiffDir : Name) (sourceEntries : List Entry) : List Name :=
  (sourceEntries.filter (fun e => e.isFile && isTiffName e.name)).map
    (fun e => joinPath tiffDir e.name)

/-- The destination directory of lines 132-140 of src/tif2webp.py:
`basename(tiff_dir) + "_webp"` under `output_root` when one is given,
else next to `tiff_dir`.  Line 135 tests `if output_root:`, Python
truthiness, so an explicit empty-string output root is falsy and falls
back to the sibling placement exactly like an absent one. -/
def webpDirOf (tiffDir : Name) (outputRoot : Option Name) : Name :=
  let base := baseName tiffDir ++ webpSuffix
  match outputRoot with
  | some root =>
      if root.isEmpty then joinPath (dirName tiffDir) base
      else joinPath root base
  | none => joinPath (dirName tiffDir) base

/-- The output file name of line 180 of src/tif2webp.py:
`os.path.splitext(os.path.basename(tiff_path))[0] + '.webp'`.  The
character case of the base name is preserved. -/
def outputName (tiffPath : Name) : Name :=
  (splitext (baseName tiffPath)).1 ++ webpExt

/-- The output path of line 181 of src/tif2webp.py. -/
def outputPathOf (webpDir tiffPath : Name) : Name :=
  joinPath webpDir (outputName tiffPath)

/-- `convert_to_webp` (lines 82-114 of src/tif2webp.py), with the
`subprocess.run` call abstracted: `.ok elapsed` when the encoder exits
normally, `.error ()` when it raises (non-zero exit under `check=True`,
missing binary, ...).  On success the function returns
`(True, elapsed)`; on any exception it returns `(False, 0)`. -/
def convert_to_webp (runResult : Except Unit ℚ) : Bool × ℚ :=
  match runResult with
  | .ok elapsed => (true, elapsed)
  | .error _ => (false, 0)

/-- The mutable statistics of the per-file loop of lines 171-204 of
src/tif2webp.py, together with the traces the claims talk about:
`outReads` are the output paths whose size was read
(`os.path.getsize(output_path)`, line 191, success branch only) and
`written` are the names of the output files produced in the
destination directory. -/
structure LoopState where
  total_time : ℚ
  success_count : Nat
  file_sizes : List (Nat × Nat × ℚ)
  outReads : List Name
  written : List Name
deriving DecidableEq

/-- The loop state before any file is processed (lines 172-174). -/
def initLoopState : LoopState :=
  { total_time := 0, success_count := 0, file_sizes := [], outReads := [], written := [] }

/-- One iteration of the loop of lines 178-204 of src/tif2webp.py.
`getSize` is `os.path.getsize`; `enc` is the abstracted outcome of the
`cwebp` subprocess for a given input and output path.  On success the
converted size is read, the ratio `new_size / orig_size` is recorded,
and time, count and sizes are accumulated; on failure the state is
unchanged (the file is skipped). -/
def processFile (webpDir : Name) (getSize : Name → Nat)
    (enc : Name → Name → Except Unit ℚ) (st : LoopState) (tiffPath : Name) :
    LoopState :=
  let file_name := outputName tiffPath
  let output_path := joinPath webpDir file_name
  let orig_size := getSize tiffPath
  let r := convert_to_webp (enc tiffPath output_path)
  if r.1 then
    let new_size := getSize output_path
    let compression_ratio : ℚ := (new_size : ℚ) / (orig_size : ℚ)
    { total_time := st.total_time + r.2,
      success_count := st.success_count + 1,
      file_sizes := st.file_sizes ++ [(orig_size, new_size, compression_ratio)],
      outReads := st.outReads ++ [output_path],
      written := st.written ++ [file_name] }
  else st

/-- The whole per-file loop: a left fold of `processFile` over the work
list, starting from the zero state. -/
def runLoop (webpDir : Name) (getSize : Name → Nat)
    (enc : Name → Name → Except Unit ℚ) (files : List Name) : LoopState :=
  files.foldl (processFile webpDir getSize enc) initLoopState

/-- The tuple `process_directory` returns (lines 124-130 of
src/tif2webp.py): success count, summed time, mean ratio, summed
original bytes, summed converted bytes. -/
structure DirResult where
  success_count : Nat
  total_time : ℚ
  avg_ratio : ℚ
  total_orig : Nat
  total_compressed : Nat
deriving DecidableEq

/-- The all-zero `DirResult` of line 169 of src/tif2webp.py. -/
def zeroDirResult : DirResult :=
  { success_count := 0, total_time := 0, avg_ratio := 0, total_orig := 0,
    total_compressed := 0 }

/-- The final statistics of lines 206-214 of src/tif2webp.py: when
`file_sizes` is non-empty, the mean of the recorded ratios and the sums
of the recorded sizes; otherwise zeros. -/
def mkDirResult (st : LoopState) : DirResult :=
  if st.file_sizes.isEmpty then
    { success_count := st.success_count, total_time := st.total_time,
      avg_ratio := 0, total_orig := 0, total_compressed := 0 }
  else
    { success_count := st.success_count, total_time := st.total_time,
      avg_ratio := (st.file_sizes.map (fun x => x.2.2)).sum / (st.file_sizes.length : ℚ),
      total_orig := (st.file_sizes.map (fun x => x.1)).sum,
      total_compressed := (st.file_sizes.map (fun x => x.2.1)).sum }

/-- Everything observable about one `process_directory` call: the
returned tuple and the traced side effects (directories created,
encoder invocations with input and output path, output-size reads,
output files written into the destination directory). -/
structure ProcOutput where
  result : DirResult
  createdDirs : List Name
  encCalls : List (Name × Name)
  outReads : List Name
  written : List Name
deriving DecidableEq

/-- `process_directory` (lines 116-214 of src/tif2webp.py).  The
listings of the source and destination directories and the file sizes
are inputs; the encoder outcome is the parameter `enc`.  Line 143
creates the destination directory unconditionally; if the filtered work
list is empty the zero tuple is returned at once (lines 168-169) with
no encoder call, otherwise the loop runs and the directory statistics
are computed.  The encoder is invoked exactly once per work-list file,
in order. -/
def process_directory (tiffDir : Name) (sourceEntries destEntries : List Entry)
    (outputRoot : Option Name) (getSize : Name → Nat)
    (enc : Name → Name → Except Unit ℚ) (forceConvert : Bool) : ProcOutput :=
  let webp_dir := webpDirOf tiffDir outputRoot
  let tiff_files := tiffFilesOf tiffDir sourceEntries
  let files := filesToConvert tiff_files destEntries forceConvert
  if files.isEmpty then
    { result := zeroDirResult, createdDirs := [webp_dir], encCalls := [],
      outReads := [], written := [] }
  else
    let st := runLoop webp_dir getSize enc files
    { result := mkDirResult st, createdDirs := [webp_dir],
      encCalls := files.map (fun f => (f, outputPathOf webp_dir f)),
      outReads := st.outReads, written := st.written }

/-- The run-wide accumulators of lines 250-253 of src/tif2webp.py. -/
structure RunTotals where
  total_files : Nat
  total_time : ℚ
  total_orig_size : Nat
  total_compressed_size : Nat
deriving DecidableEq

/-- The initial all-zero run totals. -/
def zeroRunTotals : RunTotals :=
  { total_files := 0, total_time := 0, total_orig_size := 0,
    total_compressed_size := 0 }

/-- The four `+=` statements the driver performs after each
`process_directory` call (lines 276-279, 292-295 and 312-315 of
src/tif2webp.py): field-wise addition of count, time, original bytes
and converted bytes.  The per-directory `ratio` value is received but
never accumulated. -/
def accumulate (t : RunTotals) (r : DirResult) : RunTotals :=
  { total_files := t.total_files + r.success_count,
    total_time := t.total_time + r.total_time,
    total_orig_size := t.total_orig_size + r.total_orig,
    total_compressed_size := t.total_compressed_size + r.total_compressed }

/-- The run totals after folding a list of directory results. -/
def runTotalsOf (rs : List DirResult) : RunTotals :=
  rs.foldl accumulate zeroRunTotals

/-- Line 319 of src/tif2webp.py:
`avg_file_time = total_time / total_files if total_files else 0`. -/
def avg_file_time (t : RunTotals) : ℚ :=
  if t.total_files = 0 then 0 else t.total_time / (t.total_files : ℚ)

/-- Line 320 of src/tif2webp.py:
`compression_ratio = total_compressed_size / total_orig_size if total_orig_size else 0`. -/
def run_compression_ratio (t : RunTotals) : ℚ :=
  if t.total_orig_size = 0 then 0
  else (t.total_compressed_size : ℚ) / (t.total_orig_size : ℚ)

/-- One entry of the root listing seen by `find_tiff_dirs`: its path,
whether it is a directory, and (when it is) its own listing. -/
structure DirEntry where
  path : Name
  isDirE : Bool
  children : List Entry
deriving DecidableEq

/-- The inner loop of `find_tiff_dirs` (lines 71-75 of src/tif2webp.py):
scan the children in order and stop at the first file entry whose name
lower-ends with `.tif` or `.tiff`.  Returns the `has_tiff` flag and the
number of children examined. -/
def hasTiffScan : List Entry → Bool × Nat
  | [] => (false, 0)
  | e :: rest =>
    if e.isFile && isTiffName e.name then (true, 1)
    else
      let r := hasTiffScan rest
      (r.1, r.2 + 1)

/-- `find_tiff_dirs` (lines 55-80 of src/tif2webp.py): the paths of the
immediate subdirectory entries of the root whose scan found a TIFF
child, in listing order.  Non-directory entries are skipped and no
recursion below one level takes place. -/
def find_tiff_dirs (rootEntries : List DirEntry) : List Name :=
  ((rootEntries.filter (fun d => d.isDirE && (hasTiffScan d.children).1)).map
    (fun d => d.path))

/-- An observable action of the driver `main`. -/
inductive MainAction where
  | createOutputRoot (p : Name)
  | processDir (dir : Name) (force : Bool)
  | logMissingDir (dir : Name)
deriving DecidableEq

/-- The target-argument test of line 280 of src/tif2webp.py:
`os.path.isfile(target) and target.endswith('.txt')` — note the
extension test is case-sensitive here. -/
def isManifestTarget (isFileP : Name → Bool) (t : Name) : Bool :=
  isFileP t && txtExt.isSuffixOf t

/-- The driver `main` (lines 247-320 of src/tif2webp.py), reduced to
its control flow: which directories get processed with which force
flag, whether the output root is created, and the exit status (`some 1`
for `sys.exit(1)`, `none` for normal return).  `isDirP`/`isFileP`
abstract `os.path.isdir`/`os.path.isfile`, `manifestLines` the
stripped non-blank lines of the manifest file, and `cwdTiffDirs` the
result of `find_tiff_dirs` on the working directory.  Both guards are
Python truthiness tests: line 259 is
`if args.output_dir and not os.path.exists(args.output_dir)` (an empty
output-dir string is falsy, so nothing is created), and line 268 is
`if args.target:`, so an explicitly supplied empty-string target is
falsy and takes the auto-discovery branch of lines 301-315, not the
unsupported-argument branch. -/
def mainModel (target : Option Name) (outputDir : Option Name)
    (outputDirExists : Bool) (isDirP isFileP : Name → Bool)
    (manifestLines : List Name) (cwdTiffDirs : List Name) :
    List MainAction × Option Nat :=
  let acts0 : List MainAction :=
    match outputDir with
    | some od =>
        if !od.isEmpty && !outputDirExists then [MainAction.createOutputRoot od]
        else []
    | none => []
  match target with
  | some t =>
    if t.isEmpty then
      (acts0 ++ cwdTiffDirs.map (fun d => MainAction.processDir d false), none)
    else if isDirP t then (acts0 ++ [MainAction.processDir t true], none)
    else if isManifestTarget isFileP t then
      (acts0 ++ manifestLines.map (fun d =>
        if isDirP d then MainAction.processDir d false
        else MainAction.logMissingDir d), none)
    else (acts0, some 1)
  | none => (acts0 ++ cwdTiffDirs.map (fun d => MainAction.processDir d false), none)

theorem lastSplit_eq_none_iff (c : Char) (l : Name) :
    lastSplit c l = none ↔ c ∉ l := by
  induction l with
  | nil => simp [lastSplit]
  | cons a rest ih =>
    simp only [lastSplit, List.mem_cons]
    cases h : lastSplit c rest with
    | some pp =>
      have hc : c ∈ rest := by
        by_contra hn
        rw [ih.mpr hn] at h
        exact Option.noConfusion h
      simp [hc]
    | none =>
      have hc : c ∉ rest := ih.mp h
      by_cases hac : a = c
      · simp [hac]
      · simp [hac, hc]
        exact fun h' => hac h'.symm

theorem lastSplit_eq_some (c : Char) (l pre post : Name)
    (h : lastSplit c l = some (pre, post)) :
    l = pre ++ c :: post ∧ c ∉ post := by
  induction l generalizing pre with
  | nil => simp [lastSplit] at h
  | cons a rest ih =>
    simp only [lastSplit] at h
    cases hr : lastSplit c rest with
    | some pp =>
      rw [hr] at h
      obtain ⟨pre', post'⟩ := pp
      have h1 : a :: pre' = pre ∧ post' = post := by
        simpa using h
      obtain ⟨hp, hq⟩ := h1
      subst hp hq
      obtain ⟨he, hm⟩ := ih pre' hr
      exact ⟨by rw [he]; rfl, hm⟩
    | none =>
      rw [hr] at h
      by_cases hac : a = c
      · simp [hac] at h
        obtain ⟨hp, hq⟩ := h
        subst hq
        subst hp
        constructor
        · simp [hac]
        · exact (lastSplit_eq_none_iff c rest).mp hr
      · simp [hac] at h

theorem lastSplit_append (c : Char) (pre post : Name) (h : c ∉ post) :
    lastSplit c (pre ++ c :: post) = some (pre, post) := by
  induction pre with
  | nil =>
    simp only [List.nil_append, lastSplit]
    rw [(lastSplit_eq_none_iff c post).mpr h]
    simp
  | cons a rest ih =>
    have hstep : (a :: rest) ++ c :: post = a :: (rest ++ c :: post) := rfl
    rw [hstep]
    simp only [lastSplit, ih]

theorem afterLastSep_of_not_mem (l : Name) (h : ('/' : Char) ∉ l) :
    afterLastSep l = l := by
  unfold afterLastSep
  rw [(lastSplit_eq_none_iff '/' l).mpr h]

theorem not_slash_mem_afterLastSep (l : Name) : ('/' : Char) ∉ afterLastSep l := by
  unfold afterLastSep
  cases h : lastSplit '/' l with
  | none => exact (lastSplit_eq_none_iff '/' l).mp h
  | some pp =>
    obtain ⟨pre, post⟩ := pp
    exact (lastSplit_eq_some '/' l pre post h).2

theorem mem_of_mem_afterLastSep (l : Name) (a : Char) (h : a ∈ afterLastSep l) :
    a ∈ l := by
  unfold afterLastSep at h
  cases hs : lastSplit '/' l with
  | none => rwa [hs] at h
  | some pp =>
    obtain ⟨pre, post⟩ := pp
    rw [hs] at h
    rw [(lastSplit_eq_some '/' l pre post hs).1]
    simp [h]

theorem not_slash_mem_baseName (p : Name) : ('/' : Char) ∉ baseName p :=
  not_slash_mem_afterLastSep p

theorem baseName_joinPath (d e : Name) (h : ('/' : Char) ∉ e) :
    baseName (joinPath d e) = e := by
  unfold joinPath baseName
  by_cases h1 : e.head? = some '/'
  · exfalso
    cases e with
    | nil => simp at h1
    | cons x xs =>
      simp at h1
      exact h (by simp [h1])
  · rw [if_neg h1]
    by_cases h2 : d = [] ∨ d.getLast? = some '/'
    · rw [if_pos h2]
      rcases h2 with h2 | h2
      · subst h2
        simpa using afterLastSep_of_not_mem e h
      · obtain ⟨d', hd⟩ := List.getLast?_eq_some_iff.mp h2
        rw [hd]
        have : d' ++ ['/'] ++ e = d' ++ '/' :: e := by simp
        rw [this]
        unfold afterLastSep
        rw [lastSplit_append '/' d' e h]
    · rw [if_neg h2]
      unfold afterLastSep
      rw [lastSplit_append '/' d e h]

theorem splitext_append_webp (b : Name) (hne : ∃ c ∈ b, c ≠ '.')
    (hslash : ('/' : Char) ∉ b) :
    splitext (b ++ webpExt) = (b, webpExt) := by
  have hsplit : lastSplit '.' (b ++ webpExt) = some (b, ['w', 'e', 'b', 'p']) := by
    have : b ++ webpExt = b ++ '.' :: ['w', 'e', 'b', 'p'] := rfl
    rw [this]
    exact lastSplit_append '.' b ['w', 'e', 'b', 'p'] (by decide)
  have h1 : ('/' : Char) ∉ (['w', 'e', 'b', 'p'] : Name) := by decide
  have h2 : b.any (fun c => c != '.') = true := by
    obtain ⟨c, hc, hne'⟩ := hne
    exact List.any_eq_true.mpr ⟨c, hc, bne_iff_ne.mpr hne'⟩
  simp only [splitext, hsplit, if_neg h1, afterLastSep_of_not_mem b hslash, if_pos h2]
  rfl

theorem exists_ne_dot_of_isTiffName (n : Name) (h : isTiffName n = true) :
    ∃ c ∈ n, c ≠ '.' := by
  have hf : 'f' ∈ toLowerList n := by
    unfold isTiffName at h
    rcases Bool.or_eq_true_iff.mp h with h' | h'
    · obtain ⟨t, ht⟩ := (List.isSuffixOf_iff_suffix.mp h')
      rw [← ht]
      simp [tifExt]
    · obtain ⟨t, ht⟩ := (List.isSuffixOf_iff_suffix.mp h')
      rw [← ht]
      simp [tiffExt]
  obtain ⟨c, hc, hlc⟩ := List.mem_map.mp hf
  refine ⟨c, hc, fun hdot => ?_⟩
  rw [hdot] at hlc
  exact absurd hlc (by decide)

theorem splitext_fst_props (n : Name) (hslash : ('/' : Char) ∉ n)
    (htiff : isTiffName n = true) :
    (∃ c ∈ (splitext n).1, c ≠ '.') ∧ ('/' : Char) ∉ (splitext n).1 := by
  have hbase := exists_ne_dot_of_isTiffName n htiff
  unfold splitext
  cases hs : lastSplit '.' n with
  | none => exact ⟨hbase, hslash⟩
  | some pp =>
    obtain ⟨pre, post⟩ := pp
    obtain ⟨heq, -⟩ := lastSplit_eq_some '.' n pre post hs
    by_cases h1 : ('/' : Char) ∈ post
    · simp only [if_pos h1]
      exact ⟨hbase, hslash⟩
    · simp only [if_neg h1]
      by_cases h2 : (afterLastSep pre).any (fun c => c != '.') = true
      · simp only [if_pos h2]
        constructor
        · obtain ⟨c, hc, hne⟩ := List.any_eq_true.mp h2
          exact ⟨c, mem_of_mem_afterLastSep pre c hc, bne_iff_ne.mp hne⟩
        · intro hmem
          exact hslash (by rw [heq]; simp [hmem])
      · simp only [if_neg h2]
        exact ⟨hbase, hslash⟩

theorem toLowerList_append (a b : Name) :
    toLowerList (a ++ b) = toLowerList a ++ toLowerList b :=
  List.map_append Char.toLower a b

theorem isWebpName_append_webpExt (b : Name) :
    isWebpName (b ++ webpExt) = true := by
  unfold isWebpName
  rw [toLowerList_append]
  have h : toLowerList webpExt = webpExt := by decide
  rw [h]
  exact List.isSuffixOf_iff_suffix.mpr (List.suffix_append (toLowerList b) webpExt)

theorem convertedBases_append (d₁ d₂ : List Entry) :
    convertedBases (d₁ ++ d₂) = convertedBases d₁ ++ convertedBases d₂ := by
  unfold convertedBases
  rw [List.filter_append, List.map_append]

theorem mem_convertedBases (b : Name) (d : List Entry) :
    b ∈ convertedBases d ↔
      ∃ e ∈ d, e.isFile = true ∧ isWebpName e.name = true ∧ (splitext e.name).1 = b := by
  unfold convertedBases
  simp [List.mem_map, List.mem_filter, and_assoc]

theorem length_filter_not (p : α → Bool) (l : List α) :
    (l.filter (fun a => !p a)).length = l.length - l.countP p := by
  induction l with
  | nil => rfl
  | cons a l ih =>
    have hle : l.countP p ≤ l.length := List.countP_le_length p
    by_cases h : p a
    · simp [List.countP_cons, h, ih]
    · simp only [List.filter_cons, h, Bool.not_false, List.length_cons,
        List.countP_cons, if_true, if_false]
      simp [h, ih]
      omega

theorem processFile_of_error (webpDir : Name) (getSize : Name → Nat)
    (enc : Name → Name → Except Unit ℚ) (st : LoopState) (f : Name)
    (hfail : enc f (outputPathOf webpDir f) = Except.error ()) :
    processFile webpDir getSize enc st f = st := by
  unfold outputPathOf at hfail
  simp [processFile, hfail, convert_to_webp]

theorem processFile_of_ok (webpDir : Name) (getSize : Name → Nat)
    (enc : Name → Name → Except Unit ℚ) (st : LoopState) (f : Name) (q : ℚ)
    (hq : enc f (outputPathOf webpDir f) = Except.ok q) :
    processFile webpDir getSize enc st f =
      { total_time := st.total_time + q,
        success_count := st.success_count + 1,
        file_sizes := st.file_sizes ++ [(getSize f, getSize (outputPathOf webpDir f),
          ((getSize (outputPathOf webpDir f) : ℚ) / (getSize f : ℚ)))],
        outReads := st.outReads ++ [outputPathOf webpDir f],
        written := st.written ++ [outputName f] } := by
  unfold outputPathOf at hq ⊢
  simp [processFile, hq, convert_to_webp]

theorem foldl_processFile_written (webpDir : Name) (getSize : Name → Nat)
    (enc : Name → Name → Except Unit ℚ) (files : List Name) (st : LoopState)
    (h : ∀ f ∈ files, ∃ q, enc f (outputPathOf webpDir f) = Except.ok q) :
    (files.foldl (processFile webpDir getSize enc) st).written
      = st.written ++ files.map outputName := by
  induction files generalizing st with
  | nil => simp
  | cons f fs ih =>
    obtain ⟨q, hq⟩ := h f (by simp)
    rw [List.foldl_cons, ih _ (fun g hg => h g (by simp [hg])),
      processFile_of_ok webpDir getSize enc st f q hq]
    simp

theorem runLoop_written_of_success (webpDir : Name) (getSize : Name → Nat)
    (enc : Name → Name → Except Unit ℚ) (files : List Name)
    (h : ∀ f ∈ files, ∃ q, enc f (outputPathOf webpDir f) = Except.ok q) :
    (runLoop webpDir getSize enc files).written = files.map outputName := by
  unfold runLoop
  rw [foldl_processFile_written webpDir getSize enc files initLoopState h]
  rfl

theorem process_directory_written_of_success (tiffDir : Name)
    (sourceEntries destEntries : List Entry) (outputRoot : Option Name)
    (getSize : Name → Nat) (enc : Name → Name → Except Unit ℚ) (forceConvert : Bool)
    (h : ∀ f ∈ filesToConvert (tiffFilesOf tiffDir sourceEntries) destEntries forceConvert,
        ∃ q, enc f (outputPathOf (webpDirOf tiffDir outputRoot) f) = Except.ok q) :
    (process_directory tiffDir sourceEntries destEntries outputRoot getSize enc
        forceConvert).written
      = (filesToConvert (tiffFilesOf tiffDir sourceEntries) destEntries forceConvert).map
          outputName := by
  unfold process_directory
  by_cases he :
      (filesToConvert (tiffFilesOf tiffDir sourceEntries) destEntries forceConvert).isEmpty
  · rw [List.isEmpty_iff] at he
    simp [he]
  · simp only [he, if_neg, Bool.false_eq_true, not_false_eq_true]
    exact runLoop_written_of_success _ getSize enc _ h

theorem process_directory_of_empty (tiffDir : Name)
    (sourceEntries destEntries : List Entry) (outputRoot : Option Name)
    (getSize : Name → Nat) (enc : Name → Name → Except Unit ℚ) (forceConvert : Bool)
    (h : filesToConvert (tiffFilesOf tiffDir sourceEntries) destEntries forceConvert = []) :
    process_directory tiffDir sourceEntries destEntries outputRoot getSize enc
        forceConvert
      = { result := zeroDirResult, createdDirs := [webpDirOf tiffDir outputRoot],
          encCalls := [], outReads := [], written := [] } := by
  simp only [process_directory]
  rw [h]
  rfl

theorem mem_tiffFilesOf (tiffDir : Name) (sourceEntries : List Entry) (f : Name) :
    f ∈ tiffFilesOf tiffDir sourceEntries ↔
      ∃ e ∈ sourceEntries, e.isFile = true ∧ isTiffName e.name = true
        ∧ joinPath tiffDir e.name = f := by
  unfold tiffFilesOf
  simp [List.mem_map, List.mem_filter, and_assoc]

theorem filter_after_success (tiffDir : Name) (sourceEntries destEntries : List Entry)
    (hn : ∀ e ∈ sourceEntries, ('/' : Char) ∉ e.name) :
    filesToConvert (tiffFilesOf tiffDir sourceEntries)
      (destEntries
        ++ ((filesToConvert (tiffFilesOf tiffDir sourceEntries) destEntries false).map
            outputName).map (fun n => { name := n, isFile := true }))
      false = [] := by
  unfold filesToConvert
  simp only [Bool.false_eq_true, if_neg, if_false, not_false_eq_true]
  rw [List.filter_eq_nil_iff]
  intro f hf
  simp only [Bool.not_eq_true', Bool.not_eq_true, decide_eq_false_iff_not,
    Decidable.not_not, decide_eq_true_eq]
  obtain ⟨e, he, hfile, htiff, hjoin⟩ := (mem_tiffFilesOf tiffDir sourceEntries f).mp hf
  have hbase : baseName f = e.name := by
    rw [← hjoin]
    exact baseName_joinPath tiffDir e.name (hn e he)
  obtain ⟨hnd, hns⟩ := splitext_fst_props e.name (hn e he) htiff
  by_cases hc : (splitext (baseName f)).1 ∈ convertedBases destEntries
  · rw [convertedBases_append]
    exact List.mem_append_left _ hc
  · have hsel : f ∈ filesToConvert (tiffFilesOf tiffDir sourceEntries) destEntries false := by
      unfold filesToConvert
      simp only [Bool.false_eq_true, if_neg, if_false, not_false_eq_true]
      exact List.mem_filter.mpr ⟨hf, by simp [hc]⟩
    rw [convertedBases_append]
    apply List.mem_append_right
    rw [mem_convertedBases]
    refine ⟨{ name := outputName f, isFile := true }, ?_, rfl, ?_, ?_⟩
    · exact List.mem_map.mpr ⟨outputName f, List.mem_map.mpr ⟨f, hsel, rfl⟩, rfl⟩
    · show isWebpName (outputName f) = true
      unfold outputName
      exact isWebpName_append_webpExt _
    · show (splitext (outputName f)).1 = (splitext (baseName f)).1
      unfold outputName
      rw [hbase]
      rw [splitext_append_webp (splitext e.name).1 hnd hns]

theorem foldl_accumulate (t : RunTotals) (rs : List DirResult) :
    rs.foldl accumulate t =
      { total_files := t.total_files + (rs.map (fun r => r.success_count)).sum,
        total_time := t.total_time + (rs.map (fun r => r.total_time)).sum,
        total_orig_size := t.total_orig_size + (rs.map (fun r => r.total_orig)).sum,
        total_compressed_size :=
          t.total_compressed_size + (rs.map (fun r => r.total_compressed)).sum } := by
  induction rs generalizing t with
  | nil => simp
  | cons r rs ih =>
    rw [List.foldl_cons, ih]
    simp [accumulate, add_assoc]

theorem hasTiffScan_fst (cs : List Entry) :
    (hasTiffScan cs).1 = cs.any (fun e => e.isFile && isTiffName e.name) := by
  induction cs with
  | nil => rfl
  | cons e rest ih =>
    simp only [hasTiffScan, List.any_cons]
    by_cases h : e.isFile && isTiffName e.name
    · simp [h]
    · simp [h, ih]

theorem hasTiffScan_snd (cs : List Entry) :
    (hasTiffScan cs).2
      = if cs.any (fun e => e.isFile && isTiffName e.name) = true
        then cs.findIdx (fun e => e.isFile && isTiffName e.name) + 1
        else cs.length := by
  induction cs with
  | nil => rfl
  | cons e rest ih =>
    simp only [hasTiffScan, List.any_cons, List.findIdx_cons, List.length_cons]
    by_cases h : e.isFile && isTiffName e.name
    · simp [h]
    · simp only [h, Bool.false_or, cond_false]
      rw [ih]
      by_cases hrest : rest.any (fun e => e.isFile && isTiffName e.name) = true
      · simp [hrest]
      · simp [hrest]

/-- Claim C1 fails on the code: base names are compared case-sensitively.
Source file `A.tif` has a case-insensitive base-name match `a.webp` in
the destination (the lower-cased stripped base names agree and the
destination name ends with `.webp`), so by the claim it should be
excluded and zero files selected; the code nevertheless selects it. -/
theorem claim_C1_counterexample :
    (toLowerList (splitext (baseName "A.tif".toList)).1
        = toLowerList (splitext ("a.webp".toList)).1
      ∧ isWebpName ("a.webp".toList) = true)
    ∧ filesToConvert ["A.tif".toList]
        [{ name := "a.webp".toList, isFile := true }] false
      = ["A.tif".toList] := by
  decide

/-- Claim C1 (amended): with forceAll=false, a TIFF source file is
excluded from the work list if and only if the destination directory
contains a file whose name ends with `.webp` case-insensitively and
whose base name (extension stripped) equals the source file's base name
under EXACT, case-sensitive comparison; for N TIFF files of which M
have such exact base-name matches, exactly N−M files are selected. -/
theorem claim_C1_amended (tiffFiles : List Name) (destEntries : List Entry) :
    (∀ f, f ∈ filesToConvert tiffFiles destEntries false ↔
        f ∈ tiffFiles ∧ (splitext (baseName f)).1 ∉ convertedBases destEntries)
    ∧ (∀ b, b ∈ convertedBases destEntries ↔
        ∃ e ∈ destEntries, e.isFile = true ∧ isWebpName e.name = true
          ∧ (splitext e.name).1 = b)
    ∧ (filesToConvert tiffFiles destEntries false).length
        = tiffFiles.length
          - tiffFiles.countP
              (fun f => decide ((splitext (baseName f)).1 ∈ convertedBases destEntries)) := by
  refine ⟨fun f => ?_, fun b => mem_convertedBases b destEntries, ?_⟩
  · unfold filesToConvert
    simp [List.mem_filter]
  · unfold filesToConvert
    simp only [Bool.false_eq_true, if_false]
    exact length_filter_not _ tiffFiles

/-- Claim C2: the run totals are the field-wise sums of the
per-directory results, and the summary ratio is the byte-weighted
quotient total converted bytes / total original bytes — demonstrably
not the mean of the per-directory average ratios. -/
theorem claim_C2 (rs : List DirResult) :
    (runTotalsOf rs).total_files = (rs.map (fun r => r.success_count)).sum
    ∧ (runTotalsOf rs).total_time = (rs.map (fun r => r.total_time)).sum
    ∧ (runTotalsOf rs).total_orig_size = (rs.map (fun r => r.total_orig)).sum
    ∧ (runTotalsOf rs).total_compressed_size
        = (rs.map (fun r => r.total_compressed)).sum
    ∧ ((runTotalsOf rs).total_orig_size ≠ 0 →
        run_compression_ratio (runTotalsOf rs)
          = ((runTotalsOf rs).total_compressed_size : ℚ)
            / ((runTotalsOf rs).total_orig_size : ℚ))
    ∧ ∃ a b : DirResult,
        run_compression_ratio (runTotalsOf [a, b]) ≠ (a.avg_ratio + b.avg_ratio) / 2 := by
  have hfold := foldl_accumulate zeroRunTotals rs
  unfold runTotalsOf
  rw [hfold]
  refine ⟨by simp [zeroRunTotals], by simp [zeroRunTotals], by simp [zeroRunTotals],
    by simp [zeroRunTotals], fun h => ?_, ?_⟩
  · rw [run_compression_ratio, if_neg h]
  · exact ⟨⟨1, 0, 1/2, 2, 1⟩, ⟨1, 0, 1/4, 100, 25⟩, by
      norm_num [run_compression_ratio, accumulate, zeroRunTotals, List.foldl_cons,
        List.foldl_nil]⟩

/-- Claim C4: with forceAll=true the work list is all TIFF source files
of the directory, unchanged, whatever the destination contains. -/
theorem claim_C4 (tiffFiles : List Name) (d₁ d₂ : List Entry) :
    filesToConvert tiffFiles d₁ true = tiffFiles
    ∧ filesToConvert tiffFiles d₁ true = filesToConvert tiffFiles d₂ true :=
  ⟨rfl, rfl⟩

/-- Claim C5: when the filtered work list is empty, process_directory
returns the all-zero result, invokes the encoder zero times, reads no
output sizes, writes nothing, and its only directory side effect is
the (idempotent) creation of the destination directory. -/
theorem claim_C5 (tiffDir : Name) (sourceEntries destEntries : List Entry)
    (outputRoot : Option Name) (getSize : Name → Nat)
    (enc : Name → Name → Except Unit ℚ) (forceConvert : Bool)
    (h : filesToConvert (tiffFilesOf tiffDir sourceEntries) destEntries forceConvert = []) :
    process_directory tiffDir sourceEntries destEntries outputRoot getSize enc
        forceConvert
      = { result := zeroDirResult, createdDirs := [webpDirOf tiffDir outputRoot],
          encCalls := [], outReads := [], written := [] } :=
  process_directory_of_empty tiffDir sourceEntries destEntries outputRoot getSize enc
    forceConvert h

/-- Witness for C5: a directory whose single TIFF file already has an
exact-name `.webp` counterpart in the destination. -/
theorem claim_C5_witness :
    process_directory ("scans".toList) [{ name := "a.tif".toList, isFile := true }]
        [{ name := "a.webp".toList, isFile := true }] none (fun _ => 0)
        (fun _ _ => Except.error ()) false
      = { result := zeroDirResult, createdDirs := [webpDirOf ("scans".toList) none],
          encCalls := [], outReads := [], written := [] } :=
  claim_C5 ("scans".toList) [{ name := "a.tif".toList, isFile := true }]
    [{ name := "a.webp".toList, isFile := true }] none (fun _ => 0)
    (fun _ _ => Except.error ()) false (by decide)

/-- Witness for C2: a one-directory run with 2 original bytes, whose
summary ratio is the byte quotient. -/
theorem claim_C2_witness :
    run_compression_ratio (runTotalsOf [⟨1, 0, 1/2, 2, 1⟩])
      = ((runTotalsOf [⟨1, 0, 1/2, 2, 1⟩]).total_compressed_size : ℚ)
        / ((runTotalsOf [⟨1, 0, 1/2, 2, 1⟩]).total_orig_size : ℚ) :=
  (claim_C2 [⟨1, 0, 1/2, 2, 1⟩]).2.2.2.2.1 (by decide)

/-- Claim C3: running the same directory a second time with
forceAll=false, after a first run in which every selected file was
converted successfully (so its `.webp` output landed in the
destination directory), selects an empty work list and converts zero
files.  The second run's destination listing is the first one plus the
file entries the first run wrote. -/
theorem claim_C3 (tiffDir : Name) (sourceEntries destEntries : List Entry)
    (outputRoot : Option Name) (getSize : Name → Nat)
    (enc : Name → Name → Except Unit ℚ)
    (hn : ∀ e ∈ sourceEntries, ('/' : Char) ∉ e.name)
    (hsucc : ∀ f ∈ filesToConvert (tiffFilesOf tiffDir sourceEntries) destEntries false,
        ∃ q, enc f (outputPathOf (webpDirOf tiffDir outputRoot) f) = Except.ok q) :
    filesToConvert (tiffFilesOf tiffDir sourceEntries)
        (destEntries
          ++ ((process_directory tiffDir sourceEntries destEntries outputRoot getSize enc
              false).written).map (fun n => { name := n, isFile := true }))
        false = []
    ∧ process_directory tiffDir sourceEntries
        (destEntries
          ++ ((process_directory tiffDir sourceEntries destEntries outputRoot getSize enc
              false).written).map (fun n => { name := n, isFile := true }))
        outputRoot getSize enc false
      = { result := zeroDirResult, createdDirs := [webpDirOf tiffDir outputRoot],
          encCalls := [], outReads := [], written := [] } := by
  rw [process_directory_written_of_success tiffDir sourceEntries destEntries outputRoot
    getSize enc false hsucc]
  have h0 : filesToConvert (tiffFilesOf tiffDir sourceEntries)
      (destEntries
        ++ (((filesToConvert (tiffFilesOf tiffDir sourceEntries) destEntries false).map
            outputName).map (fun n => { name := n, isFile := true })))
      false = [] := by
    have := filter_after_success tiffDir sourceEntries destEntries hn
    exact this
  exact ⟨h0, process_directory_of_empty tiffDir sourceEntries _ outputRoot getSize enc
    false h0⟩

/-- Witness for C3: one source file `a.tif`, empty destination, an
encoder that always succeeds in 1 second. -/
theorem claim_C3_witness :
    filesToConvert (tiffFilesOf ("scans".toList)
        [{ name := "a.tif".toList, isFile := true }])
      ([]
        ++ ((process_directory ("scans".toList)
            [{ name := "a.tif".toList, isFile := true }] [] none (fun _ => 2)
            (fun _ _ => Except.ok 1) false).written).map
          (fun n => { name := n, isFile := true }))
      false = [] :=
  (claim_C3 ("scans".toList) [{ name := "a.tif".toList, isFile := true }] [] none
    (fun _ => 2) (fun _ _ => Except.ok 1) (by decide)
    (fun f _ => ⟨1, rfl⟩)).1

/-- Claim C6: a file whose encoder invocation fails contributes nothing
to the loop statistics (success count, time, size/ratio list), has no
output size read, and the remaining files are processed exactly as if
the failing file were absent; the directory result is unchanged. -/
theorem claim_C6 (webpDir : Name) (getSize : Name → Nat)
    (enc : Name → Name → Except Unit ℚ) (pre post : List Name) (f : Name)
    (hfail : enc f (outputPathOf webpDir f) = Except.error ()) :
    runLoop webpDir getSize enc (pre ++ f :: post)
      = runLoop webpDir getSize enc (pre ++ post)
    ∧ mkDirResult (runLoop webpDir getSize enc (pre ++ f :: post))
      = mkDirResult (runLoop webpDir getSize enc (pre ++ post)) := by
  have h : runLoop webpDir getSize enc (pre ++ f :: post)
      = runLoop webpDir getSize enc (pre ++ post) := by
    unfold runLoop
    rw [List.foldl_append, List.foldl_append, List.foldl_cons,
      processFile_of_error webpDir getSize enc _ f hfail]
  exact ⟨h, by rw [h]⟩

/-- Witness for C6: `b.tif` fails between two other files. -/
theorem claim_C6_witness :
    runLoop ("d".toList) (fun _ => 5) (fun _ _ => Except.error ())
        (["a.tif".toList] ++ "b.tif".toList :: ["c.tif".toList])
      = runLoop ("d".toList) (fun _ => 5) (fun _ _ => Except.error ())
        (["a.tif".toList] ++ ["c.tif".toList]) :=
  (claim_C6 ("d".toList) (fun _ => 5) (fun _ _ => Except.error ()) ["a.tif".toList]
    ["c.tif".toList] ("b.tif".toList) rfl).1

/-- Claim C7 fails on the code: line 268 tests `if args.target:`,
Python truthiness, so an explicitly supplied EMPTY target string —
which is neither an existing directory (`os.path.isdir('')` is false)
nor an existing `.txt` file (`os.path.isfile('')` is false) — does not
make the driver exit with status 1.  It is falsy, so the driver takes
the auto-discovery branch, returns normally (exit status 0), and
processes (converts) whatever TIFF directories discovery finds. -/
theorem claim_C7_counterexample :
    ((fun _ => false) : Name → Bool) [] = false
    ∧ isManifestTarget (fun _ => false) [] = false
    ∧ (mainModel (some []) none true (fun _ => false) (fun _ => false) []
        ["d".toList]).2 = none
    ∧ MainAction.processDir ("d".toList) false
        ∈ (mainModel (some []) none true (fun _ => false) (fun _ => false) []
            ["d".toList]).1 := by
  decide

/-- Claim C7 (amended): a NON-EMPTY target that is neither an existing
directory nor an existing regular file ending in `.txt` makes the
driver exit with status 1, and no directory is processed (so no
destination directory is created and no conversion is attempted).  An
empty target string is falsy at line 268 and instead triggers
auto-discovery of the working directory. -/
theorem claim_C7 (t : Name) (outputDir : Option Name) (outputDirExists : Bool)
    (isDirP isFileP : Name → Bool) (manifestLines cwdTiffDirs : List Name)
    (hne : t ≠ []) (hdir : isDirP t = false)
    (hman : isManifestTarget isFileP t = false) :
    (mainModel (some t) outputDir outputDirExists isDirP isFileP manifestLines
        cwdTiffDirs).2 = some 1
    ∧ ∀ a ∈ (mainModel (some t) outputDir outputDirExists isDirP isFileP manifestLines
        cwdTiffDirs).1, ∀ d fc, a ≠ MainAction.processDir d fc := by
  have hte : t.isEmpty = false := by
    cases t with
    | nil => exact absurd rfl hne
    | cons a l => rfl
  simp only [mainModel, hte, hdir, hman, Bool.false_eq_true, if_false]
  refine ⟨by simp, ?_⟩
  intro a ha d fc
  rcases outputDir with - | od
  · simp at ha
  · by_cases hc : (!od.isEmpty && !outputDirExists) = true
    · simp [hc] at ha
      subst ha
      simp
    · simp [hc] at ha

/-- Witness for C7: target `bogus`, non-empty and neither a directory
nor a `.txt` file. -/
theorem claim_C7_witness :
    (mainModel (some ("bogus".toList)) none true (fun _ => false) (fun _ => false)
        [] []).2 = some 1 :=
  (claim_C7 ("bogus".toList) none true (fun _ => false) (fun _ => false) [] []
    (by decide) rfl rfl).1

/-- Claim C8: `find_tiff_dirs` returns exactly the immediate
subdirectory entries of the root having at least one immediate child
file whose name lower-ends with `.tif` or `.tiff` (one level, no
recursion), and the child scan stops at the first match: when a match
exists it examines exactly the entries up to and including the first
matching one, otherwise all of them. -/
theorem claim_C8 (rootEntries : List DirEntry) :
    (∀ p, p ∈ find_tiff_dirs rootEntries ↔
        ∃ d ∈ rootEntries, d.isDirE = true
          ∧ (∃ e ∈ d.children, e.isFile = true ∧ isTiffName e.name = true)
          ∧ d.path = p)
    ∧ ∀ cs : List Entry,
        (hasTiffScan cs).2
          = if cs.any (fun e => e.isFile && isTiffName e.name) = true
            then cs.findIdx (fun e => e.isFile && isTiffName e.name) + 1
            else cs.length := by
  constructor
  · intro p
    unfold find_tiff_dirs
    simp [List.mem_map, List.mem_filter, hasTiffScan_fst, List.any_eq_true, and_assoc]
  · exact hasTiffScan_snd

/-- Claim C9: the output path is the destination directory joined with
the source base name (case preserved) plus `.webp`; two source files
with the same stripped base name map to the same output path. -/
theorem claim_C9 (webpDir f g : Name)
    (h : (splitext (baseName f)).1 = (splitext (baseName g)).1) :
    outputPathOf webpDir f = outputPathOf webpDir g
    ∧ outputName f = (splitext (baseName f)).1 ++ webpExt
    ∧ outputName ("A.tif".toList) = "A.webp".toList := by
  refine ⟨?_, rfl, by decide⟩
  unfold outputPathOf outputName
  rw [h]

/-- Witness for C9: `x.tif` and `x.tiff` in the same directory collide
on the same output path. -/
theorem claim_C9_witness :
    outputPathOf ("scans_webp".toList) ("x.tif".toList)
      = outputPathOf ("scans_webp".toList) ("x.tiff".toList) :=
  (claim_C9 ("scans_webp".toList) ("x.tif".toList) ("x.tiff".toList) (by decide)).1

/-- Claim C10: the summary statistics are total: average time per file
is 0 when no file was converted and otherwise the exact quotient, and
the global ratio is 0 when no original bytes were counted and
otherwise the exact byte quotient — no division by zero occurs. -/
theorem claim_C10 (t : RunTotals) :
    (t.total_files = 0 → avg_file_time t = 0)
    ∧ (t.total_files ≠ 0 → avg_file_time t * (t.total_files : ℚ) = t.total_time)
    ∧ (t.total_orig_size = 0 → run_compression_ratio t = 0)
    ∧ (t.total_orig_size ≠ 0 →
        run_compression_ratio t * (t.total_orig_size : ℚ)
          = (t.total_compressed_size : ℚ)) := by
  refine ⟨fun h => by simp [avg_file_time, h], fun h => ?_,
    fun h => by simp [run_compression_ratio, h], fun h => ?_⟩
  · rw [avg_file_time, if_neg h]
    exact div_mul_cancel₀ _ (by exact_mod_cast h)
  · rw [run_compression_ratio, if_neg h]
    exact div_mul_cancel₀ _ (by exact_mod_cast h)

/-- Witness for C10: totals with 2 files, 3 seconds, 4 original and 1
converted byte. -/
theorem claim_C10_witness :
    avg_file_time ⟨2, 3, 4, 1⟩ * (((⟨2, 3, 4, 1⟩ : RunTotals).total_files : Nat) : ℚ)
        = (⟨2, 3, 4, 1⟩ : RunTotals).total_time
    ∧ run_compression_ratio ⟨2, 3, 4, 1⟩
        * (((⟨2, 3, 4, 1⟩ : RunTotals).total_orig_size : Nat) : ℚ)
      = ((⟨2, 3, 4, 1⟩ : RunTotals).total_compressed_size : ℚ) :=
  ⟨(claim_C10 ⟨2, 3, 4, 1⟩).2.1 (by decide), (claim_C10 ⟨2, 3, 4, 1⟩).2.2.2 (by decide)⟩
